import Mathlib

/-!
Verification development for a PaddleNLP snapshot.

The development shallowly embeds the Python components the claims are about:

* `model_zoo/gpt-3/.../auto/auto_model.py`:
  the decode-strategy dispatch of `GPTForGenerationAuto.forward`,
  `get_logits_processor`, `GPTPretrainingCriterionAuto.forward`,
  `update_scores_for_generation`, the `TopKProcess` / `TopPProcess`
  helpers and the `sample` loop.
* `model_zoo/ernie-vil2.0/data.py`:
  `LMDBDataset.__init__`, `LMDBDataset.__getitem__` and `pad_dataset`.
* `pipelines/examples/chatpaper/function_calling_example.py`: `chat_paper`.

Tensors are embedded as lists of rationals (per batch row), byte strings as
lists of naturals, key-value stores as partial functions from string keys,
and framework primitives that are not part of the repository (pickle,
base64, utf-8 decoding, the cross-entropy kernel, the LMDB library itself)
as explicit function parameters, so every theorem is quantified over them.
-/

/-! ### Decode-strategy dispatch of GPTForGenerationAuto.forward

`forward` first runs
`assert decode_strategy in ["greedy_search", "sampling", "beam_search"]`
and afterwards only the `"sampling"` branch is implemented; every other
strategy that passed the assertion reaches
`raise ValueError(f"Not support {decode_strategy} strategy yet!")`.
-/

inductive GenError where
  /-- AssertionError raised by the `decode_strategy in [...]` assertion. -/
  | assertStrategy (msg : String)
  /-- ValueError raised by the final `else` branch of `forward`. -/
  | notSupport (msg : String)
  deriving DecidableEq

/-- Control flow of `GPTForGenerationAuto.forward` with respect to the
configured `decode_strategy`: `Except.ok ()` means the call proceeds to the
decoding loop (`self.sample`). -/
def decode_strategy_dispatch (decode_strategy : String) : Except GenError Unit :=
  if decode_strategy = "greedy_search" ∨ decode_strategy = "sampling" ∨
      decode_strategy = "beam_search" then
    if decode_strategy = "sampling" then
      Except.ok ()
    else
      Except.error (GenError.notSupport ("Not support " ++ decode_strategy ++ " strategy yet!"))
  else
    Except.error (GenError.assertStrategy
      ("decode_strategy must be one of greedy_search, sampling or beam_search but received "
        ++ decode_strategy ++ "."))

/-! ### get_logits_processor -/

/-- Descriptors for the logits processors `get_logits_processor` can append
(the processor classes themselves live in `..dygraph.processor`). -/
inductive LogitsProcessorKind where
  | minLengthProc (min_length : Int) (eos_token_id : Int)
  | hammingDiversity (diversity_rate : ℚ) (num_beams : Nat) (num_beam_groups : Nat)
  | repetitionPenalty (penalty : ℚ)
  | forcedBOSToken (token_id : Int)
  | forcedEOSToken (max_length : Int) (token_id : Int)
  deriving DecidableEq

/-- Embedding of `GPTForGenerationAuto.get_logits_processor`: builds the
processor list by running the five `if` statements in source order. -/
def get_logits_processor (min_length : Option Int) (max_length : Int)
    (eos_token_id : Option Int)
    (forced_bos_token_id : Option Int) (forced_eos_token_id : Option Int)
    (num_beams : Nat) (num_beam_groups : Nat) (diversity_rate : ℚ)
    (repetition_penalty : Option ℚ) : List LogitsProcessorKind :=
  let ps0 : List LogitsProcessorKind := []
  let ps1 :=
    match min_length, eos_token_id with
    | some ml, some eos =>
        if ml > -1 then ps0 ++ [LogitsProcessorKind.minLengthProc ml eos] else ps0
    | _, _ => ps0
  let ps2 :=
    if num_beam_groups > 1 ∧ diversity_rate > 0 then
      ps1 ++ [LogitsProcessorKind.hammingDiversity diversity_rate num_beams num_beam_groups]
    else ps1
  let ps3 :=
    match repetition_penalty with
    | some rp => if rp ≠ 1 then ps2 ++ [LogitsProcessorKind.repetitionPenalty rp] else ps2
    | none => ps2
  let ps4 :=
    match forced_bos_token_id with
    | some t => ps3 ++ [LogitsProcessorKind.forcedBOSToken t]
    | none => ps3
  let ps5 :=
    match forced_eos_token_id with
    | some t => ps4 ++ [LogitsProcessorKind.forcedEOSToken max_length t]
    | none => ps4
  ps5

/-! ### LMDBDataset (model_zoo/ernie-vil2.0/data.py) -/

/-- Raw byte strings (LMDB values, pickled blobs, image bytes). -/
abbrev Bytes := List Nat

/-- Abstraction of `os.path.isdir`. -/
structure FileSys where
  isDir : String → Bool

/-- Failures of `LMDBDataset.__init__`. -/
inductive InitError where
  /-- One of the three directory assertions failed; carries the missing
  directory and the assertion message (which names that directory). -/
  | assertDir (dir : String) (msg : String)
  /-- A metadata key was absent or did not parse as an integer. -/
  | metadataMissing (key : String)
  deriving DecidableEq

/-- The fields of `LMDBDataset` fixed by the constructor that the claims
are about. -/
structure LMDBInfo where
  number_samples : Nat
  number_images : Nat
  deriving DecidableEq

/-- Metadata fetch of `LMDBDataset.__init__`, run after the stores are
opened: `num_samples` is read from the pairs store and `num_images` from
the imgs store, each as a decimal integer. `parse_int` stands for
`int(bytes.decode("utf-8"))`. -/
def lmdb_read_metadata (parse_int : Bytes → Option Nat)
    (pairs_store imgs_store : String → Option Bytes) : Except InitError LMDBInfo :=
  match pairs_store "num_samples" with
  | none => Except.error (InitError.metadataMissing "num_samples")
  | some bs =>
    match parse_int bs with
    | none => Except.error (InitError.metadataMissing "num_samples")
    | some ns =>
      match imgs_store "num_images" with
      | none => Except.error (InitError.metadataMissing "num_images")
      | some bi =>
        match parse_int bi with
        | none => Except.error (InitError.metadataMissing "num_images")
        | some ni => Except.ok ⟨ns, ni⟩

/-- Embedding of `LMDBDataset.__init__`: the three `assert os.path.isdir`
checks run first, then the two LMDB stores are opened (the second component
of the result lists the store directories opened, in order), then the
metadata keys `num_samples` and `num_images` are fetched and parsed.
`pairs_store` and `imgs_store` stand for the read transactions of the two
opened environments. -/
def lmdb_init (fs : FileSys) (parse_int : Bytes → Option Nat)
    (pairs_store imgs_store : String → Option Bytes)
    (lmdb_path split : String) : Except InitError LMDBInfo × List String :=
  if fs.isDir lmdb_path = false then
    (Except.error (InitError.assertDir lmdb_path
      ("The LMDB directory " ++ lmdb_path ++ " of " ++ split ++ " split does not exist!")), [])
  else
    let lmdb_pairs := lmdb_path ++ "/pairs"
    if fs.isDir lmdb_pairs = false then
      (Except.error (InitError.assertDir lmdb_pairs
        ("The LMDB directory " ++ lmdb_pairs ++ " of " ++ split
          ++ " image-text pairs does not exist!")), [])
    else
      let lmdb_imgs := lmdb_path ++ "/imgs"
      if fs.isDir lmdb_imgs = false then
        (Except.error (InitError.assertDir lmdb_imgs
          ("The LMDB directory " ++ lmdb_imgs ++ " of " ++ split
            ++ " image base64 strings does not exist!")), [])
      else
        -- both stores are opened only after all three directory checks pass
        (lmdb_read_metadata parse_int pairs_store imgs_store, [lmdb_pairs, lmdb_imgs])

/-- Embedding of `LMDBDataset.__getitem__` up to the decoded image bytes:
`sample_index = index % number_samples`; the pairs transaction is read at
key `str(sample_index)` and unpickled into `(image_id, text_id, raw_text)`;
the imgs transaction is read at key `str(image_id)`, utf-8 decoded and
base64 decoded. `pickle_loads`, `b64decode` and `utf8decode` stand for
`pickle.loads`, `base64.urlsafe_b64decode` and `bytes.decode`; the
subsequent image transform and tokenization are framework code and are not
part of the access pattern the claims describe. -/
def lmdb_getitem (pickle_loads : Bytes → Option (Int × Int × String))
    (b64decode : String → Bytes) (utf8decode : Bytes → String)
    (txn_pairs txn_imgs : String → Option Bytes)
    (number_samples : Nat) (index : Nat) : Option (Bytes × Int × Int × String) :=
  let sample_index := index % number_samples
  match txn_pairs (toString sample_index) with
  | none => none
  | some pairBytes =>
    match pickle_loads pairBytes with
    | none => none
    | some (image_id, text_id, raw_text) =>
      match txn_imgs (toString image_id) with
      | none => none
      | some imgBytes =>
        some (b64decode (utf8decode imgBytes), image_id, text_id, raw_text)

/-- The two fields of `LMDBDataset` that `pad_dataset` mutates. -/
structure DatasetLenState where
  dataset_len : Nat
  global_batch_size : Nat
  deriving DecidableEq

/-- Embedding of `pad_dataset`:
`dataset.dataset_len = ceil(dataset.dataset_len / global_batch_size) * global_batch_size`
with the exact (rational) ceiling, written on naturals as
`(n + g - 1) / g * g`. -/
def pad_dataset (d : DatasetLenState) (global_batch_size : Nat) : DatasetLenState :=
  { dataset_len := (d.dataset_len + global_batch_size - 1) / global_batch_size * global_batch_size
    global_batch_size := global_batch_size }

/-! ### GPTPretrainingCriterionAuto.forward -/

/-- Embedding of `GPTPretrainingCriterionAuto.forward`. The batch and
sequence dimensions are flattened into one list of token positions, as the
source does with `reshape([-1])`. `loss_func` stands for
`paddle.nn.CrossEntropyLoss(reduction="none")` applied to one position
(a row of logits and its label); the source applies it elementwise and then
computes `sum(masked_lm_loss * loss_mask) / loss_mask.sum()`. -/
def criterion_forward (loss_func : List ℚ → Int → ℚ)
    (prediction_scores : List (List ℚ)) (masked_lm_labels : List Int)
    (loss_mask : List ℚ) : ℚ :=
  let masked_lm_loss := List.zipWith (fun row lbl => loss_func row lbl)
    prediction_scores masked_lm_labels
  (List.zipWith (fun l m => l * m) masked_lm_loss loss_mask).sum / loss_mask.sum

/-! ### chat_paper (pipelines/examples/chatpaper/function_calling_example.py) -/

/-- A function call requested by the model: a function name and
JSON-encoded arguments. -/
structure FunctionCall where
  name : String
  arguments : String
  deriving DecidableEq

/-- A chat message as chat_paper builds them: the role plus the optional
content, name and function_call fields of the dicts it appends. -/
structure ChatMessage where
  role : String
  content : Option String
  name : Option String
  function_call : Option FunctionCall
  deriving DecidableEq

/-- A ChatCompletion response: its result text and its optional
function_call field. -/
structure ChatResponse where
  result : String
  function_call : Option FunctionCall
  deriving DecidableEq

/-- Trace of one chat_paper run: the returned response, the final message
list, every response received in order, the executed function calls in
order, and the number of ChatCompletion requests issued. -/
structure ChatTrace where
  response : ChatResponse
  messages : List ChatMessage
  responses : List ChatResponse
  executed : List FunctionCall
  num_requests : Nat
  deriving DecidableEq

/-- The two messages chat_paper appends for one executed function call:
the assistant message carrying the function_call and the function-role
message carrying the JSON-encoded result. -/
def chat_function_messages (exec_call : FunctionCall → String)
    (fc : FunctionCall) : List ChatMessage :=
  [⟨"assistant", none, none, some fc⟩, ⟨"function", some (exec_call fc), some fc.name, none⟩]

/-- The `for i in range(3)` retry loop of chat_paper. `create` stands for
`erniebot.ChatCompletion.create` as a function of the message list, and
`exec_call` for looking up the named retrieval function, JSON-decoding its
arguments, running it and JSON-encoding its result. Each iteration returns
the current response if it has no function_call; otherwise it executes the
call, appends the two messages and issues the next request. -/
def chat_paper_loop (create : List ChatMessage → ChatResponse)
    (exec_call : FunctionCall → String) :
    Nat → List ChatMessage → ChatResponse → List ChatResponse → List FunctionCall → Nat →
      ChatTrace
  | 0, messages, response, responses, executed, num_requests =>
    ⟨response, messages, responses, executed, num_requests⟩
  | i + 1, messages, response, responses, executed, num_requests =>
    match response.function_call with
    | none => ⟨response, messages, responses, executed, num_requests⟩
    | some fc =>
      let messages2 := messages ++ chat_function_messages exec_call fc
      let response2 := create messages2
      chat_paper_loop create exec_call i messages2 response2 (responses ++ [response2])
        (executed ++ [fc]) (num_requests + 1)

/-- Embedding of `chat_paper`: one initial ChatCompletion request followed
by the three-iteration retry loop. -/
def chat_paper (create : List ChatMessage → ChatResponse)
    (exec_call : FunctionCall → String) (messages : List ChatMessage) : ChatTrace :=
  let response := create messages
  chat_paper_loop create exec_call 3 messages response [response] [] 1

/-! ### TopKProcess and TopPProcess

Both helpers act row-wise on the batch; they are embedded on one row of
probabilities. `paddle.sort(probs, descending=True)` and
`paddle.argsort(probs, descending=True)` are embedded with a stable
insertion sort of the token indices by descending probability: any two
descending-sorted rearrangements of the same row are equal as lists, so
the value sort is the probabilities read off along the argsort. -/

/-- The `sorted_indices` of `paddle.argsort(probs, descending=True)`:
token indices ordered by descending probability, ties keeping the smaller
index first. -/
def argsort_desc (probs : List ℚ) : List Nat :=
  List.insertionSort (fun i j => probs.getD j 0 ≤ probs.getD i 0) (List.range probs.length)

/-- The `sorted_probs` of `paddle.sort(probs, descending=True)`. -/
def sort_desc (probs : List ℚ) : List ℚ :=
  (argsort_desc probs).map (fun i => probs.getD i 0)

/-- Embedding of `TopKProcess`: clamp `top_k` to
`min(max(top_k, min_tokens_to_keep), probs.shape[-1])`, take the last of
the top-k values as threshold (`topk_probs[:, -1:]`) and zero out every
entry below it (`paddle.where(probs >= topk_probs[:, -1:], probs, 0)`). -/
def TopKProcess (probs : List ℚ) (top_k : Nat) (min_tokens_to_keep : Nat) : List ℚ :=
  let top_k2 := min (max top_k min_tokens_to_keep) probs.length
  let topk_probs := (sort_desc probs).take top_k2
  let threshold := topk_probs.getD (top_k2 - 1) 0
  probs.map (fun x => if x ≥ threshold then x else 0)

/-- `paddle.cumsum` with a running accumulator: entry j is the sum of the
entries at positions 0..j. -/
def cumsum (acc : ℚ) : List ℚ → List ℚ
  | [] => []
  | x :: xs => (acc + x) :: cumsum (acc + x) xs

/-- The slice assignment
`sorted_indices_to_remove[:, : min_tokens_to_keep - 1] = 0`: clear the
first n entries of the removal mask. -/
def mask_first (n : Nat) (l : List Bool) : List Bool :=
  (l.take n).map (fun _ => false) ++ l.drop n

/-- One flattened row of `paddle.scatter(x, index, updates)`: the position
`index[k]` is overwritten with `updates[k]`. In `TopPProcess` the index
list is a permutation of all positions, so every entry of the base tensor
is overwritten (the source passes the flattened mask itself as base). -/
def scatter_upd (x : List Bool) (index : List Nat) (updates : List Bool) : List Bool :=
  (List.zip index updates).foldl (fun acc iu => acc.set iu.1 iu.2) x

/-- Embedding of `TopPProcess` on one row, in source order: sort and
argsort descending, cumulative sums, removal mask `cumulative > top_p`,
clearing of the first `min_tokens_to_keep - 1` mask entries when
`min_tokens_to_keep > 1`, the shift `mask[1:] = mask[:-1]; mask[0] = 0`
keeping the first token, the scatter back to token order, and
`paddle.where(condition, 0, probs)`. The int64 round-trip of the mask is
the identity on booleans. -/
def TopPProcess (probs : List ℚ) (top_p : ℚ) (min_tokens_to_keep : Nat) : List ℚ :=
  let sorted_probs := sort_desc probs
  let sorted_indices := argsort_desc probs
  let cumulative_probs := cumsum 0 sorted_probs
  let sitr0 := cumulative_probs.map (fun c => decide (c > top_p))
  let sitr1 :=
    if min_tokens_to_keep > 1 then mask_first (min_tokens_to_keep - 1) sitr0 else sitr0
  let sitr2 := false :: sitr1.dropLast
  let condition := scatter_upd (List.replicate probs.length false) sorted_indices sitr2
  List.zipWith (fun c x => if c then 0 else x) condition probs

/-- Rank of token t under the descending order: its position in
`argsort_desc`. -/
def rank_desc (probs : List ℚ) (t : Nat) : Nat :=
  (argsort_desc probs).indexOf t

/-- Cumulative probability of the tokens ranked strictly before token t. -/
def cum_before (probs : List ℚ) (t : Nat) : ℚ :=
  ((sort_desc probs).take (rank_desc probs t)).sum

/-! ### The sampling loop of GPTForGenerationAuto.sample -/

/-- Per-batch-row state of the sampling loop: the tokens appended last
(`input_ids` after a step is `next_tokens`), the running scores, the
unfinished flags, and the accumulated token columns `res` (prompt columns
included). Batch rows are indexed by naturals. -/
structure SampleState where
  input_ids : Nat → Int
  scores : Nat → ℚ
  unfinished_flag : Nat → Bool
  res : List (Nat → Int)

/-- Embedding of `update_scores_for_generation`: running-mean update of the
scores, applied through `paddle.where` only to unfinished rows. -/
def update_scores_for_generation (scores next_scores : Nat → ℚ) (length : ℚ)
    (unfinished_flag : Nat → Bool) : Nat → ℚ :=
  fun b =>
    if unfinished_flag b then (scores b * length + next_scores b) / (length + 1)
    else scores b

/-- One `_post_process_` step of `GPTForGenerationAuto.sample` in the case
`eos_token_id is not None`. `drawn` gives the token `paddle.multinomial`
samples for each row at this step and `drawn_score` its log-probability
(`paddle.index_sample(origin_probs, next_tokens)`, computed before the pad
substitution); the model forward pass, the logits processors and the
probability transforms only determine which token is drawn, so they are
folded into the draw oracle. `length` is `cur_len - origin_len`. In source
order: finished rows get `pad_token_id` instead of the drawn token, the
scores are updated under the current `unfinished_flag`, the flag is then
cleared for rows whose appended token equals `eos_token_id`, and the
appended column is concatenated onto `res`. -/
def sample_post_process (eos_token_id pad_token_id : Int)
    (drawn : Nat → Int) (drawn_score : Nat → ℚ) (length : ℚ)
    (st : SampleState) : SampleState :=
  let next_tokens := fun b => if st.unfinished_flag b then drawn b else pad_token_id
  let new_scores := update_scores_for_generation st.scores drawn_score length st.unfinished_flag
  let new_unfinished := fun b => st.unfinished_flag b && !(next_tokens b == eos_token_id)
  { input_ids := next_tokens
    scores := new_scores
    unfinished_flag := new_unfinished
    res := st.res ++ [next_tokens] }

/-- Initial state of `sample`: `res` holds the prompt columns, all rows are
unfinished and the scores are zero. -/
def sample_init (prompt : List (Nat → Int)) : SampleState :=
  { input_ids := fun b => (prompt.getLastD (fun _ => 0)) b
    scores := fun _ => 0
    unfinished_flag := fun _ => true
    res := prompt }

/-- State after k post-process steps. The pre-loop call runs with
`cur_len - origin_len = 0` and each later iteration with the incremented
length, matching `paddle.increment(cur_len)`. -/
def sample_iter (eos_token_id pad_token_id : Int)
    (draws : Nat → Nat → Int) (draw_scores : Nat → Nat → ℚ)
    (init : SampleState) : Nat → SampleState
  | 0 => init
  | k + 1 => sample_post_process eos_token_id pad_token_id (draws k) (draw_scores k)
      (k : ℚ) (sample_iter eos_token_id pad_token_id draws draw_scores init k)

/-- The value `sample` returns after n executed steps:
`model_kwargs["res"][:, origin_len:]` (the accumulated columns with the
prompt columns dropped) together with the scores. -/
def sample_run (eos_token_id pad_token_id : Int)
    (draws : Nat → Nat → Int) (draw_scores : Nat → Nat → ℚ)
    (prompt : List (Nat → Int)) (n : Nat) : List (Nat → Int) × (Nat → ℚ) :=
  let final := sample_iter eos_token_id pad_token_id draws draw_scores (sample_init prompt) n
  (final.res.drop prompt.length, final.scores)

/-! ### Helper lemmas -/

/-- A list sum as a sum over positions. -/
theorem listSum_eq_sum_range (l : List ℚ) :
    l.sum = ∑ j ∈ Finset.range l.length, l.getD j 0 := by
  induction l with
  | nil => simp
  | cons x xs ih =>
    simp only [List.sum_cons, List.length_cons]
    rw [Finset.sum_range_succ']
    simp [List.getD_cons_succ, List.getD_cons_zero, ih, add_comm]

/-- A zipWith sum as a sum over positions. -/
theorem zipWith_sum_eq_sum_range {α β : Type} (f : α → β → ℚ) (xs : List α) (ys : List β)
    (d₁ : α) (d₂ : β) (h : xs.length = ys.length) :
    (List.zipWith f xs ys).sum = ∑ j ∈ Finset.range xs.length, f (xs.getD j d₁) (ys.getD j d₂) := by
  induction xs generalizing ys with
  | nil => simp
  | cons x xs ih =>
    cases ys with
    | nil => simp at h
    | cons y ys =>
      simp only [List.zipWith_cons_cons, List.sum_cons, List.length_cons]
      rw [Finset.sum_range_succ']
      simp [List.getD_cons_succ, List.getD_cons_zero,
        ih ys (by simpa using h), add_comm]

/-- getD of a zipWith at an in-range position. -/
theorem zipWith_getD {α β γ : Type} (f : α → β → γ) (xs : List α) (ys : List β)
    (j : Nat) (d₁ : α) (d₂ : β) (d₃ : γ) (hj : j < xs.length) (hj2 : j < ys.length) :
    (List.zipWith f xs ys).getD j d₃ = f (xs.getD j d₁) (ys.getD j d₂) := by
  induction xs generalizing ys j with
  | nil => simp at hj
  | cons x xs ih =>
    cases ys with
    | nil => simp at hj2
    | cons y ys =>
      cases j with
      | zero => simp
      | succ j =>
        simp only [List.zipWith_cons_cons, List.getD_cons_succ]
        exact ih ys j (by simpa using hj) (by simpa using hj2)

/-- The metadata fetch never produces a directory-assertion error. -/
theorem lmdb_read_metadata_no_assert (parse_int : Bytes → Option Nat)
    (pairs_store imgs_store : String → Option Bytes) (d m : String) :
    lmdb_read_metadata parse_int pairs_store imgs_store ≠
      Except.error (InitError.assertDir d m) := by
  unfold lmdb_read_metadata
  rcases hps : pairs_store "num_samples" with _ | bs
  · simp [hps]
  rcases hpi : parse_int bs with _ | ns
  · simp [hps, hpi]
  rcases his : imgs_store "num_images" with _ | bi
  · simp [hps, hpi, his]
  rcases hpi2 : parse_int bi with _ | ni
  · simp [hps, hpi, his, hpi2]
  · simp [hps, hpi, his, hpi2]

/-! ### Theorems for the claims -/

/-- C1 (counterexample): greedy_search is one of the three strategies the
assertion accepts, yet forward does not proceed to decoding for it: the
final else branch raises ValueError. -/
theorem C1_counterexample :
    ("greedy_search" = "greedy_search" ∨ "greedy_search" = "sampling" ∨
      "greedy_search" = "beam_search") ∧
    decode_strategy_dispatch "greedy_search" ≠ Except.ok () := by
  refine ⟨Or.inl rfl, ?_⟩
  intro h
  rw [show decode_strategy_dispatch "greedy_search" =
    Except.error (GenError.notSupport ("Not support " ++ "greedy_search" ++ " strategy yet!"))
    from rfl] at h
  cases h

/-- C1 (amended): a decode_strategy outside greedy_search, sampling and
beam_search fails the assertion; among the three only sampling proceeds to
decoding, while greedy_search and beam_search pass the assertion and then
raise ValueError (Not support ... strategy yet). -/
theorem decode_strategy_dispatch_spec (s : String) :
    (¬(s = "greedy_search" ∨ s = "sampling" ∨ s = "beam_search") →
      decode_strategy_dispatch s = Except.error (GenError.assertStrategy
        ("decode_strategy must be one of greedy_search, sampling or beam_search but received "
          ++ s ++ "."))) ∧
    (decode_strategy_dispatch s = Except.ok () ↔ s = "sampling") ∧
    ((s = "greedy_search" ∨ s = "beam_search") →
      decode_strategy_dispatch s =
        Except.error (GenError.notSupport ("Not support " ++ s ++ " strategy yet!"))) := by
  refine ⟨?_, ⟨?_, ?_⟩, ?_⟩
  · intro h
    unfold decode_strategy_dispatch
    rw [if_neg h]
  · intro h
    by_cases hs : s = "sampling"
    · exact hs
    · exfalso
      unfold decode_strategy_dispatch at h
      by_cases h1 : s = "greedy_search" ∨ s = "sampling" ∨ s = "beam_search"
      · rw [if_pos h1, if_neg hs] at h
        exact Except.noConfusion h
      · rw [if_neg h1] at h
        exact Except.noConfusion h
  · intro hs
    unfold decode_strategy_dispatch
    rw [if_pos (Or.inr (Or.inl hs)), if_pos hs]
  · intro h
    have h1 : s = "greedy_search" ∨ s = "sampling" ∨ s = "beam_search" := by
      rcases h with h | h
      · exact Or.inl h
      · exact Or.inr (Or.inr h)
    have hs : ¬ s = "sampling" := by
      rcases h with h | h <;> subst h <;> decide
    unfold decode_strategy_dispatch
    rw [if_pos h1, if_neg hs]

/-- C1 (witness): the amended statement evaluated at concrete strategies. -/
theorem decode_strategy_dispatch_spec_witness :
    decode_strategy_dispatch "topk" = Except.error (GenError.assertStrategy
      ("decode_strategy must be one of greedy_search, sampling or beam_search but received "
        ++ "topk" ++ ".")) ∧
    decode_strategy_dispatch "sampling" = Except.ok () ∧
    decode_strategy_dispatch "beam_search" =
      Except.error (GenError.notSupport ("Not support " ++ "beam_search" ++ " strategy yet!")) := by
  refine ⟨(decode_strategy_dispatch_spec "topk").1 (by decide),
    ((decode_strategy_dispatch_spec "sampling").2.1).mpr rfl,
    (decode_strategy_dispatch_spec "beam_search").2.2 (Or.inr rfl)⟩

/-- C6: constructing an LMDBDataset over a missing directory fails the
corresponding assertion, whose payload names the missing directory, before
any store handle is opened; with all three directories present the
directory checks pass, both stores are opened, and no directory assertion
fires. -/
theorem lmdb_init_spec (fs : FileSys) (parse_int : Bytes → Option Nat)
    (pairs_store imgs_store : String → Option Bytes) (lmdb_path split : String) :
    (fs.isDir lmdb_path = false →
      lmdb_init fs parse_int pairs_store imgs_store lmdb_path split =
        (Except.error (InitError.assertDir lmdb_path
          ("The LMDB directory " ++ lmdb_path ++ " of " ++ split ++ " split does not exist!")),
          [])) ∧
    (fs.isDir lmdb_path = true → fs.isDir (lmdb_path ++ "/pairs") = false →
      lmdb_init fs parse_int pairs_store imgs_store lmdb_path split =
        (Except.error (InitError.assertDir (lmdb_path ++ "/pairs")
          ("The LMDB directory " ++ (lmdb_path ++ "/pairs") ++ " of " ++ split
            ++ " image-text pairs does not exist!")), [])) ∧
    (fs.isDir lmdb_path = true → fs.isDir (lmdb_path ++ "/pairs") = true →
      fs.isDir (lmdb_path ++ "/imgs") = false →
      lmdb_init fs parse_int pairs_store imgs_store lmdb_path split =
        (Except.error (InitError.assertDir (lmdb_path ++ "/imgs")
          ("The LMDB directory " ++ (lmdb_path ++ "/imgs") ++ " of " ++ split
            ++ " image base64 strings does not exist!")), [])) ∧
    (fs.isDir lmdb_path = true → fs.isDir (lmdb_path ++ "/pairs") = true →
      fs.isDir (lmdb_path ++ "/imgs") = true →
      (lmdb_init fs parse_int pairs_store imgs_store lmdb_path split).2 =
        [lmdb_path ++ "/pairs", lmdb_path ++ "/imgs"] ∧
      ∀ d m, (lmdb_init fs parse_int pairs_store imgs_store lmdb_path split).1 ≠
        Except.error (InitError.assertDir d m)) := by
  refine ⟨?_, ?_, ?_, ?_⟩
  · intro h
    simp [lmdb_init, h]
  · intro h1 h2
    simp [lmdb_init, h1, h2]
  · intro h1 h2 h3
    simp [lmdb_init, h1, h2, h3]
  · intro h1 h2 h3
    constructor
    · simp [lmdb_init, h1, h2, h3]
    · intro d m
      have hfst : (lmdb_init fs parse_int pairs_store imgs_store lmdb_path split).1 =
          lmdb_read_metadata parse_int pairs_store imgs_store := by
        simp [lmdb_init, h1, h2, h3]
      rw [hfst]
      exact lmdb_read_metadata_no_assert parse_int pairs_store imgs_store d m

/-- C6 (witness): the theorem evaluated on a concrete missing directory and
on a concrete filesystem where all three directories exist. -/
theorem lmdb_init_spec_witness :
    lmdb_init ⟨fun _ => false⟩ (fun _ => none) (fun _ => none) (fun _ => none) "db" "val" =
      (Except.error (InitError.assertDir "db"
        ("The LMDB directory " ++ "db" ++ " of " ++ "val" ++ " split does not exist!")), []) ∧
    ((lmdb_init ⟨fun _ => true⟩ (fun _ => none) (fun _ => none) (fun _ => none) "db" "val").2 =
      ["db" ++ "/pairs", "db" ++ "/imgs"] ∧
    ∀ d m, (lmdb_init ⟨fun _ => true⟩ (fun _ => none) (fun _ => none) (fun _ => none) "db" "val").1 ≠
      Except.error (InitError.assertDir d m)) := by
  refine ⟨(lmdb_init_spec ⟨fun _ => false⟩ (fun _ => none) (fun _ => none) (fun _ => none)
      "db" "val").1 rfl,
    (lmdb_init_spec ⟨fun _ => true⟩ (fun _ => none) (fun _ => none) (fun _ => none)
      "db" "val").2.2.2 rfl rfl rfl⟩

/-- C4: __getitem__ reads the pairs store at key str(index mod
number_samples), unpickles the triple, reads the imgs store at key
str(image_id) and base64-decodes the utf-8 decoded bytes; the constructor
reads number_samples and number_images from the num_samples and num_images
metadata keys of the two stores. -/
theorem lmdb_getitem_spec
    (pickle_loads : Bytes → Option (Int × Int × String))
    (b64decode : String → Bytes) (utf8decode : Bytes → String)
    (txn_pairs txn_imgs : String → Option Bytes)
    (fs : FileSys) (parse_int : Bytes → Option Nat)
    (lmdb_path split : String)
    (number_samples i : Nat)
    (pairBytes imgBytes nsBytes niBytes : Bytes)
    (image_id text_id : Int) (raw_text : String) (ns ni : Nat)
    (hpair : txn_pairs (toString (i % number_samples)) = some pairBytes)
    (hpickle : pickle_loads pairBytes = some (image_id, text_id, raw_text))
    (himg : txn_imgs (toString image_id) = some imgBytes)
    (hm1 : txn_pairs "num_samples" = some nsBytes) (hp1 : parse_int nsBytes = some ns)
    (hm2 : txn_imgs "num_images" = some niBytes) (hp2 : parse_int niBytes = some ni)
    (hd1 : fs.isDir lmdb_path = true) (hd2 : fs.isDir (lmdb_path ++ "/pairs") = true)
    (hd3 : fs.isDir (lmdb_path ++ "/imgs") = true) :
    lmdb_getitem pickle_loads b64decode utf8decode txn_pairs txn_imgs number_samples i =
      some (b64decode (utf8decode imgBytes), image_id, text_id, raw_text) ∧
    (lmdb_init fs parse_int txn_pairs txn_imgs lmdb_path split).1 = Except.ok ⟨ns, ni⟩ := by
  constructor
  · simp [lmdb_getitem, hpair, hpickle, himg]
  · simp [lmdb_init, lmdb_read_metadata, hd1, hd2, hd3, hm1, hp1, hm2, hp2]

/-- C4 (witness): the theorem evaluated on a concrete pair of stores. -/
theorem lmdb_getitem_spec_witness :
    lmdb_getitem
      (fun b => if b = [7] then some (5, 9, "cap") else none)
      (fun _ => [9]) (fun _ => "x")
      (fun k => if k = "0" then some [7] else if k = "num_samples" then some [1] else none)
      (fun k => if k = "5" then some [3, 4] else if k = "num_images" then some [1, 2] else none)
      2 4 =
      some ([9], 5, 9, "cap") ∧
    (lmdb_init ⟨fun _ => true⟩ (fun b => some b.length)
      (fun k => if k = "0" then some [7] else if k = "num_samples" then some [1] else none)
      (fun k => if k = "5" then some [3, 4] else if k = "num_images" then some [1, 2] else none)
      "db" "val").1 = Except.ok ⟨1, 2⟩ := by
  refine lmdb_getitem_spec
    (fun b => if b = [7] then some (5, 9, "cap") else none)
    (fun _ => [9]) (fun _ => "x")
    (fun k => if k = "0" then some [7] else if k = "num_samples" then some [1] else none)
    (fun k => if k = "5" then some [3, 4] else if k = "num_images" then some [1, 2] else none)
    ⟨fun _ => true⟩ (fun b => some b.length) "db" "val" 2 4
    [7] [3, 4] [1] [1, 2] 5 9 "cap" 1 2
    (by decide) (by decide) (by decide) (by decide) (by decide) (by decide) (by decide)
    rfl rfl rfl

/-- C8: after pad_dataset the length is the smallest multiple of the
global batch size at least number_samples, and __getitem__ depends on its
index only through index mod number_samples, which always lands on an
existing sample slot. -/
theorem pad_dataset_spec (number_samples g : Nat) (h1 : 1 ≤ number_samples) (hg : 1 ≤ g)
    (pickle_loads : Bytes → Option (Int × Int × String))
    (b64decode : String → Bytes) (utf8decode : Bytes → String)
    (txn_pairs txn_imgs : String → Option Bytes) :
    (g ∣ (pad_dataset ⟨number_samples, 1⟩ g).dataset_len ∧
      number_samples ≤ (pad_dataset ⟨number_samples, 1⟩ g).dataset_len ∧
      ∀ m, g ∣ m → number_samples ≤ m →
        (pad_dataset ⟨number_samples, 1⟩ g).dataset_len ≤ m) ∧
    ∀ i, lmdb_getitem pickle_loads b64decode utf8decode txn_pairs txn_imgs number_samples i =
        lmdb_getitem pickle_loads b64decode utf8decode txn_pairs txn_imgs number_samples
          (i % number_samples) ∧
      i % number_samples < number_samples := by
  have hg0 : 0 < g := hg
  have hlen : (pad_dataset ⟨number_samples, 1⟩ g).dataset_len
      = ((number_samples - 1) / g + 1) * g := by
    show (number_samples + g - 1) / g * g = ((number_samples - 1) / g + 1) * g
    have h2 : number_samples + g - 1 = (number_samples - 1) + g := by omega
    rw [h2, Nat.add_div_right _ hg0]
  constructor
  · refine ⟨?_, ?_, ?_⟩
    · rw [hlen]
      exact dvd_mul_left g _
    · rw [hlen]
      have hdm := Nat.div_add_mod (number_samples - 1) g
      have hmod : (number_samples - 1) % g < g := Nat.mod_lt _ hg0
      calc number_samples = (number_samples - 1) + 1 := by omega
        _ = g * ((number_samples - 1) / g) + (number_samples - 1) % g + 1 := by rw [hdm]
        _ ≤ g * ((number_samples - 1) / g) + g := Nat.add_le_add_left hmod _
        _ = ((number_samples - 1) / g + 1) * g := by ring
    · intro m hdvd hns
      obtain ⟨c, rfl⟩ := hdvd
      have hlt : (number_samples - 1) / g < c := by
        rw [Nat.div_lt_iff_lt_mul hg0]
        calc number_samples - 1 < number_samples := by omega
          _ ≤ g * c := hns
          _ = c * g := by ring
      rw [hlen]
      calc ((number_samples - 1) / g + 1) * g ≤ c * g := Nat.mul_le_mul_right _ hlt
        _ = g * c := by ring
  · intro i
    have hmm : i % number_samples % number_samples = i % number_samples :=
      Nat.mod_mod_of_dvd i (dvd_refl number_samples)
    refine ⟨?_, Nat.mod_lt _ (by omega)⟩
    simp only [lmdb_getitem, hmm]

/-- C8 (witness): the theorem evaluated at number_samples = 5, batch 2. -/
theorem pad_dataset_spec_witness :
    (2 ∣ (pad_dataset ⟨5, 1⟩ 2).dataset_len ∧
      5 ≤ (pad_dataset ⟨5, 1⟩ 2).dataset_len ∧
      ∀ m, 2 ∣ m → 5 ≤ m → (pad_dataset ⟨5, 1⟩ 2).dataset_len ≤ m) ∧
    ∀ i, lmdb_getitem (fun _ => none) (fun _ => []) (fun _ => "")
        (fun _ => none) (fun _ => none) 5 i =
      lmdb_getitem (fun _ => none) (fun _ => []) (fun _ => "")
        (fun _ => none) (fun _ => none) 5 (i % 5) ∧
      i % 5 < 5 :=
  pad_dataset_spec 5 2 (by decide) (by decide) (fun _ => none) (fun _ => [])
    (fun _ => "") (fun _ => none) (fun _ => none)

/-- C7: get_logits_processor appends a RepetitionPenaltyLogitsProcessor to
the returned list if and only if repetition_penalty is neither None nor
1.0, and the list built with repetition_penalty = 1.0 is identical to the
one built with repetition_penalty = None. -/
theorem get_logits_processor_repetition_penalty (min_length : Option Int)
    (max_length : Int) (eos_token_id : Option Int)
    (forced_bos_token_id forced_eos_token_id : Option Int)
    (num_beams num_beam_groups : Nat) (diversity_rate : ℚ)
    (repetition_penalty : Option ℚ) (x : ℚ) :
    (LogitsProcessorKind.repetitionPenalty x ∈
        get_logits_processor min_length max_length eos_token_id forced_bos_token_id
          forced_eos_token_id num_beams num_beam_groups diversity_rate repetition_penalty ↔
      repetition_penalty = some x ∧ x ≠ 1) ∧
    get_logits_processor min_length max_length eos_token_id forced_bos_token_id
        forced_eos_token_id num_beams num_beam_groups diversity_rate (some 1) =
      get_logits_processor min_length max_length eos_token_id forced_bos_token_id
        forced_eos_token_id num_beams num_beam_groups diversity_rate none := by
  constructor
  · rcases min_length with _ | ml <;> rcases eos_token_id with _ | eos <;>
      rcases repetition_penalty with _ | rp <;>
      rcases forced_bos_token_id with _ | fb <;> rcases forced_eos_token_id with _ | fe <;>
      simp only [get_logits_processor] <;> split_ifs <;>
      simp_all [List.mem_append, List.mem_singleton, eq_comm]
  · rcases min_length with _ | ml <;> rcases eos_token_id with _ | eos <;>
      simp [get_logits_processor]

/-- C5: the pretraining criterion returns the sum over token positions of
per-token cross-entropy weighted by the loss mask, divided by the mask sum;
positions with mask 0 contribute nothing to the numerator, and the
denominator is positive when the mask is nonnegative and not all zero. -/
theorem criterion_forward_spec (loss_func : List ℚ → Int → ℚ)
    (prediction_scores : List (List ℚ)) (masked_lm_labels : List Int) (loss_mask : List ℚ)
    (n : Nat) (h1 : prediction_scores.length = n) (h2 : masked_lm_labels.length = n)
    (h3 : loss_mask.length = n)
    (hnn : ∀ j, 0 ≤ loss_mask.getD j 0) (hnz : ∃ j, j < n ∧ 0 < loss_mask.getD j 0) :
    criterion_forward loss_func prediction_scores masked_lm_labels loss_mask =
      (∑ j ∈ Finset.range n, loss_func (prediction_scores.getD j [])
        (masked_lm_labels.getD j 0) * loss_mask.getD j 0) /
      (∑ j ∈ Finset.range n, loss_mask.getD j 0) ∧
    (∑ j ∈ Finset.range n, loss_func (prediction_scores.getD j [])
        (masked_lm_labels.getD j 0) * loss_mask.getD j 0) =
      (∑ j ∈ (Finset.range n).filter (fun j => loss_mask.getD j 0 ≠ 0),
        loss_func (prediction_scores.getD j [])
          (masked_lm_labels.getD j 0) * loss_mask.getD j 0) ∧
    0 < loss_mask.sum := by
  have hzl : (List.zipWith (fun row lbl => loss_func row lbl)
      prediction_scores masked_lm_labels).length = n := by
    simp [List.length_zipWith, h1, h2]
  have hkey : (List.zipWith (fun l m => l * m)
      (List.zipWith (fun row lbl => loss_func row lbl) prediction_scores masked_lm_labels)
      loss_mask).sum =
      ∑ j ∈ Finset.range n, loss_func (prediction_scores.getD j [])
        (masked_lm_labels.getD j 0) * loss_mask.getD j 0 := by
    rw [zipWith_sum_eq_sum_range (fun l m => l * m) _ loss_mask 0 0 (by rw [hzl, h3])]
    rw [hzl]
    refine Finset.sum_congr rfl ?_
    intro j hj
    have hj1 : j < prediction_scores.length := by
      rw [h1]; exact Finset.mem_range.mp hj
    have hj2 : j < masked_lm_labels.length := by
      rw [h2]; exact Finset.mem_range.mp hj
    rw [zipWith_getD (fun row lbl => loss_func row lbl) prediction_scores
      masked_lm_labels j [] 0 0 hj1 hj2]
  have hmask : loss_mask.sum = ∑ j ∈ Finset.range n, loss_mask.getD j 0 := by
    rw [listSum_eq_sum_range, h3]
  refine ⟨?_, ?_, ?_⟩
  · show (List.zipWith (fun l m => l * m)
      (List.zipWith (fun row lbl => loss_func row lbl) prediction_scores masked_lm_labels)
      loss_mask).sum / loss_mask.sum = _
    rw [hkey, hmask]
  · refine (Finset.sum_filter_of_ne ?_).symm
    intro j _ hne hm0
    exact hne (by rw [hm0, mul_zero])
  · rw [hmask]
    refine Finset.sum_pos' (fun j _ => hnn j) ?_
    obtain ⟨j, hj, hpos⟩ := hnz
    exact ⟨j, Finset.mem_range.mpr hj, hpos⟩

/-- C5 (witness): the criterion theorem evaluated on a concrete batch of
two positions with the first position masked out; only the unmasked
position contributes. -/
theorem criterion_forward_spec_witness :
    criterion_forward (fun row lbl => row.sum + (lbl : ℚ)) [[2], [4]] [1, 3] [0, 1] = 7 ∧
    0 < ([0, 1] : List ℚ).sum := by
  have hnn : ∀ j, (0 : ℚ) ≤ ([0, 1] : List ℚ).getD j 0 := by
    intro j
    rcases j with _ | _ | j
    · norm_num
    · norm_num
    · simp [List.getD]
  have h := criterion_forward_spec (fun row lbl => row.sum + (lbl : ℚ))
    [[2], [4]] [1, 3] [0, 1] 2 rfl rfl rfl hnn ⟨1, by norm_num, by norm_num [List.getD]⟩
  refine ⟨?_, h.2.2⟩
  rw [h.1, Finset.sum_range_succ, Finset.sum_range_succ, Finset.sum_range_zero,
    Finset.sum_range_succ, Finset.sum_range_succ, Finset.sum_range_zero]
  norm_num [List.getD]

/-- Invariant of the chat_paper retry loop: the returned trace extends the
incoming one by at most the remaining fuel, keeps the bookkeeping between
responses, executed calls, requests and appended messages, and returns a
response without function_call whenever the loop stopped early. -/
theorem chat_paper_loop_invariant (create : List ChatMessage → ChatResponse)
    (exec_call : FunctionCall → String) (i : Nat) :
    ∀ (orig messages : List ChatMessage) (response : ChatResponse)
      (responses : List ChatResponse) (executed : List FunctionCall) (nr : Nat)
      (t : ChatTrace),
      t = chat_paper_loop create exec_call i messages response responses executed nr →
      responses.getLast? = some response →
      responses.length = executed.length + 1 →
      (responses.dropLast.all fun r => r.function_call.isSome) = true →
      messages = orig ++ (executed.map (chat_function_messages exec_call)).flatten →
      nr = executed.length + 1 →
      t.responses.getLast? = some t.response ∧
      t.responses.length = t.executed.length + 1 ∧
      t.num_requests = t.executed.length + 1 ∧
      (t.responses.dropLast.all fun r => r.function_call.isSome) = true ∧
      t.messages = orig ++ (t.executed.map (chat_function_messages exec_call)).flatten ∧
      t.executed.length ≤ executed.length + i ∧
      (t.executed.length < executed.length + i → t.response.function_call = none) := by
  induction i with
  | zero =>
    intro orig messages response responses executed nr t ht hlast hlen hall hmsg hnr
    subst ht
    simp only [chat_paper_loop]
    exact ⟨hlast, hlen, hnr, hall, hmsg, Nat.le_refl _, fun h => absurd h (by omega)⟩
  | succ i ih =>
    intro orig messages response responses executed nr t ht hlast hlen hall hmsg hnr
    cases hfc : response.function_call with
    | none =>
      rw [ht]
      simp only [chat_paper_loop, hfc]
      refine ⟨hlast, hlen, hnr, hall, hmsg, by omega, ?_⟩
      exact fun _ => trivial
    | some fc =>
      have hne : responses ≠ [] := by
        intro h
        rw [h] at hlast
        exact Option.noConfusion hlast
      have hall2 : (responses.all fun r => r.function_call.isSome) = true := by
        conv_lhs => rw [← List.dropLast_append_getLast hne]
        rw [List.all_append]
        have hlg : responses.getLast hne = response := by
          have h2 := List.getLast?_eq_getLast responses hne
          rw [h2] at hlast
          exact Option.some.inj hlast
        simp [hall, hlg, hfc]
      have hrec : t = chat_paper_loop create exec_call i
          (messages ++ chat_function_messages exec_call fc)
          (create (messages ++ chat_function_messages exec_call fc))
          (responses ++ [create (messages ++ chat_function_messages exec_call fc)])
          (executed ++ [fc]) (nr + 1) := by
        rw [ht]
        simp only [chat_paper_loop, hfc]
      have h := ih orig (messages ++ chat_function_messages exec_call fc)
        (create (messages ++ chat_function_messages exec_call fc))
        (responses ++ [create (messages ++ chat_function_messages exec_call fc)])
        (executed ++ [fc]) (nr + 1) t hrec
        (by simp [List.getLast?_concat])
        (by simp [hlen])
        (by simp [List.dropLast_concat, hall2])
        (by simp [hmsg])
        (by simp [hnr])
      refine ⟨h.1, h.2.1, h.2.2.1, h.2.2.2.1, h.2.2.2.2.1, ?_, ?_⟩
      · have h6 := h.2.2.2.2.2.1
        simp only [List.length_append, List.length_cons, List.length_nil] at h6
        omega
      · intro hlt
        apply h.2.2.2.2.2.2
        simp only [List.length_append, List.length_cons, List.length_nil]
        omega

/-- C10: chat_paper executes at most 3 retrieval function calls and issues
at most 4 ChatCompletion requests; it returns the last response received,
every earlier response carried a function_call (so the first response
lacking one is returned), each executed call appends exactly one assistant
message with the function_call and one function-role message with the
JSON-encoded result, and when fewer than 3 calls were executed the
returned response has no function_call. -/
theorem chat_paper_spec (create : List ChatMessage → ChatResponse)
    (exec_call : FunctionCall → String) (messages : List ChatMessage) :
    (chat_paper create exec_call messages).executed.length ≤ 3 ∧
    (chat_paper create exec_call messages).num_requests ≤ 4 ∧
    (chat_paper create exec_call messages).num_requests =
      (chat_paper create exec_call messages).executed.length + 1 ∧
    (chat_paper create exec_call messages).responses.length =
      (chat_paper create exec_call messages).num_requests ∧
    (chat_paper create exec_call messages).responses.getLast? =
      some (chat_paper create exec_call messages).response ∧
    ((chat_paper create exec_call messages).responses.dropLast.all
      fun r => r.function_call.isSome) = true ∧
    (chat_paper create exec_call messages).messages =
      messages ++ ((chat_paper create exec_call messages).executed.map
        (chat_function_messages exec_call)).flatten ∧
    ((chat_paper create exec_call messages).executed.length < 3 →
      (chat_paper create exec_call messages).response.function_call = none) := by
  have h := chat_paper_loop_invariant create exec_call 3 messages messages
    (create messages) [create messages] [] 1 (chat_paper create exec_call messages)
    rfl (by simp) (by simp) (by simp) (by simp) rfl
  refine ⟨by simpa using h.2.2.2.2.2.1, ?_, h.2.2.1, ?_, h.1, h.2.2.2.1, h.2.2.2.2.1, ?_⟩
  · have h6 : (chat_paper create exec_call messages).executed.length ≤ 3 := by
      simpa using h.2.2.2.2.2.1
    have h3 := h.2.2.1
    omega
  · have h2 := h.2.1
    have h3 := h.2.2.1
    omega
  · intro hlt
    exact h.2.2.2.2.2.2 (by simpa using hlt)

/-- C10 (witness): a concrete service that requests one retrieval call and
then answers; chat_paper executes that one call and returns the
function_call-free answer. -/
theorem chat_paper_spec_witness :
    (chat_paper
      (fun msgs => if msgs.length = 1 then
        ⟨"r1", some ⟨"search_multi_paper", "q"⟩⟩ else ⟨"r2", none⟩)
      (fun _ => "res") [⟨"user", some "hi", none, none⟩]).executed.length ≤ 3 ∧
    (chat_paper
      (fun msgs => if msgs.length = 1 then
        ⟨"r1", some ⟨"search_multi_paper", "q"⟩⟩ else ⟨"r2", none⟩)
      (fun _ => "res") [⟨"user", some "hi", none, none⟩]).response.function_call = none := by
  have h := chat_paper_spec
    (fun msgs => if msgs.length = 1 then
      ⟨"r1", some ⟨"search_multi_paper", "q"⟩⟩ else ⟨"r2", none⟩)
    (fun _ => "res") [⟨"user", some "hi", none, none⟩]
  exact ⟨h.1, h.2.2.2.2.2.2.2 (by decide)⟩

/-- C9: in sample with eos_token_id set, a row that generated
eos_token_id is marked finished, finished rows stay finished, every later
step appends pad_token_id for them and leaves their score unchanged by
update_scores_for_generation, and the returned value is the accumulated
token matrix with the prompt columns removed. -/
theorem sample_eos_invariants (eos_token_id pad_token_id : Int)
    (draws : Nat → Nat → Int) (draw_scores : Nat → Nat → ℚ)
    (prompt : List (Nat → Int)) (k b : Nat) (st st2 : SampleState)
    (hst : st = sample_iter eos_token_id pad_token_id draws draw_scores
      (sample_init prompt) k)
    (hst2 : st2 = sample_iter eos_token_id pad_token_id draws draw_scores
      (sample_init prompt) (k + 1)) :
    st2.res = st.res ++ [st2.input_ids] ∧
    (st.unfinished_flag b = false → st2.unfinished_flag b = false) ∧
    (st.unfinished_flag b = true → draws k b = eos_token_id →
      st2.unfinished_flag b = false) ∧
    (st.unfinished_flag b = false →
      st2.input_ids b = pad_token_id ∧ st2.scores b = st.scores b) ∧
    sample_run eos_token_id pad_token_id draws draw_scores prompt k =
      (st.res.drop prompt.length, st.scores) := by
  subst hst
  subst hst2
  refine ⟨rfl, ?_, ?_, ?_, rfl⟩
  · intro h
    simp only [sample_iter, sample_post_process, h]
    simp
  · intro h1 h2
    simp only [sample_iter, sample_post_process, h1, h2]
    simp [h1, h2]
  · intro h
    constructor
    · simp only [sample_iter, sample_post_process, h]
      simp [h]
    · simp only [sample_iter, sample_post_process, update_scores_for_generation, h]
      simp [h]

/-- C9 (witness): a run where row 0 draws eos (7) at the first step; the
next step appends pad (0) for it and leaves its score unchanged. -/
theorem sample_eos_invariants_witness :
    (sample_iter 7 0 (fun s _ => if s = 0 then 7 else 5) (fun _ _ => 1)
        (sample_init [fun _ => 3]) 2).input_ids 0 = 0 ∧
    (sample_iter 7 0 (fun s _ => if s = 0 then 7 else 5) (fun _ _ => 1)
        (sample_init [fun _ => 3]) 2).scores 0 =
      (sample_iter 7 0 (fun s _ => if s = 0 then 7 else 5) (fun _ _ => 1)
        (sample_init [fun _ => 3]) 1).scores 0 := by
  have h := sample_eos_invariants 7 0 (fun s _ => if s = 0 then 7 else 5) (fun _ _ => 1)
    [fun _ => 3] 1 0 _ _ rfl rfl
  have hfin : (sample_iter 7 0 (fun s _ => if s = 0 then 7 else 5) (fun _ _ => 1)
      (sample_init [fun _ => 3]) 1).unfinished_flag 0 = false := by decide
  exact ⟨(h.2.2.2.1 hfin).1, (h.2.2.2.1 hfin).2⟩

/-- getD of a mapped list at an in-range position. -/
theorem getD_map_of_lt {α β : Type} (f : α → β) (l : List α) (j : Nat) (d₁ : α) (d₂ : β)
    (hj : j < l.length) : (l.map f).getD j d₂ = f (l.getD j d₁) := by
  induction l generalizing j with
  | nil => simp at hj
  | cons x xs ih =>
    cases j with
    | zero => simp
    | succ j => simpa using ih j (by simpa using hj)

/-- getD of a take at a position inside the taken segment. -/
theorem getD_take_of_lt {α : Type} (l : List α) (n m : Nat) (d : α) (h : m < n) :
    (l.take n).getD m d = l.getD m d := by
  induction l generalizing n m with
  | nil => simp
  | cons x xs ih =>
    cases n with
    | zero => exact absurd h (Nat.not_lt_zero m)
    | succ n =>
      cases m with
      | zero => simp
      | succ m => simpa using ih n m (by omega)

/-- getD of dropLast strictly inside the shortened list. -/
theorem getD_dropLast_of_lt {α : Type} (l : List α) (m : Nat) (d : α) (h : m < l.length - 1) :
    l.dropLast.getD m d = l.getD m d := by
  rw [List.dropLast_eq_take]
  exact getD_take_of_lt l _ m d h

/-- cumsum preserves the length. -/
theorem cumsum_length (l : List ℚ) (acc : ℚ) : (cumsum acc l).length = l.length := by
  induction l generalizing acc with
  | nil => rfl
  | cons x xs ih => simpa [cumsum] using ih (acc + x)

/-- cumsum entries are the accumulator plus the inclusive partial sums. -/
theorem cumsum_getD (l : List ℚ) (acc : ℚ) (m : Nat) (hm : m < l.length) :
    (cumsum acc l).getD m 0 = acc + (l.take (m + 1)).sum := by
  induction l generalizing acc m with
  | nil => simp at hm
  | cons x xs ih =>
    cases m with
    | zero =>
      simp only [cumsum, List.getD_cons_zero, List.take_succ_cons, List.take_zero,
        List.sum_cons, List.sum_nil]
      ring
    | succ m =>
      simp only [cumsum, List.getD_cons_succ]
      rw [ih (acc + x) m (by simpa using hm)]
      rw [List.take_succ_cons, List.sum_cons]
      ring

/-- scatter_upd preserves the length. -/
theorem scatter_upd_length (x : List Bool) (index : List Nat) (updates : List Bool) :
    (scatter_upd x index updates).length = x.length := by
  induction index generalizing x updates with
  | nil => rfl
  | cons i is ih =>
    cases updates with
    | nil => rfl
    | cons u us =>
      show (scatter_upd (x.set i u) is us).length = x.length
      rw [ih (x.set i u) us, List.length_set]

/-- scatter_upd leaves positions outside the index list unchanged. -/
theorem scatter_upd_not_mem (x : List Bool) (index : List Nat) (updates : List Bool)
    (t : Nat) (d : Bool) (h : t ∉ index) :
    (scatter_upd x index updates).getD t d = x.getD t d := by
  induction index generalizing x updates with
  | nil => rfl
  | cons i is ih =>
    cases updates with
    | nil => rfl
    | cons u us =>
      have ht : t ∉ is := fun hm => h (List.mem_cons_of_mem i hm)
      have hti : t ≠ i := fun he => h (he ▸ List.mem_cons_self i is)
      show (scatter_upd (x.set i u) is us).getD t d = x.getD t d
      rw [ih (x.set i u) us ht, List.getD_eq_getElem?_getD, List.getD_eq_getElem?_getD,
        List.getElem?_set_ne (Ne.symm hti)]

/-- scatter_upd writes updates[k] at position index[k] when the index list
has no duplicates and the target position is in range. -/
theorem scatter_upd_hit (x : List Bool) (index : List Nat) (updates : List Bool)
    (k : Nat) (d : Bool) (hnd : index.Nodup) (hk : k < index.length)
    (hku : k < updates.length) (hrange : index.getD k 0 < x.length) :
    (scatter_upd x index updates).getD (index.getD k 0) d = updates.getD k d := by
  induction index generalizing x updates k with
  | nil => simp at hk
  | cons i is ih =>
    cases updates with
    | nil => simp at hku
    | cons u us =>
      cases k with
      | zero =>
        show (scatter_upd (x.set i u) is us).getD ((i :: is).getD 0 0) d = u
        simp only [List.getD_cons_zero] at hrange ⊢
        rw [scatter_upd_not_mem (x.set i u) is us i d (List.nodup_cons.mp hnd).1]
        simp [List.getD_eq_getElem?_getD, List.getElem?_set_self, hrange]
      | succ k =>
        show (scatter_upd (x.set i u) is us).getD ((i :: is).getD (k + 1) 0) d =
          (u :: us).getD (k + 1) d
        simp only [List.getD_cons_succ] at hrange ⊢
        exact ih (x.set i u) us k (List.nodup_cons.mp hnd).2 (by simpa using hk)
          (by simpa using hku) (by simpa [List.length_set] using hrange)

/-- mask_first preserves the length. -/
theorem mask_first_length (n : Nat) (l : List Bool) : (mask_first n l).length = l.length := by
  unfold mask_first
  rw [List.length_append, List.length_map, List.length_take, List.length_drop]
  omega

/-- mask_first entry formula. -/
theorem mask_first_getD (n : Nat) (l : List Bool) (m : Nat) (d : Bool) (hm : m < l.length) :
    (mask_first n l).getD m d = if m < n then false else l.getD m d := by
  unfold mask_first
  by_cases h : m < n
  · rw [List.getD_append _ _ _ _ (by simp; omega)]
    rw [getD_map_of_lt (fun _ => false) (l.take n) m false d (by simp; omega)]
    simp [h]
  · rw [List.getD_append_right _ _ _ _ (by
      rw [List.length_map, List.length_take]
      exact le_trans (Nat.min_le_left n l.length) (Nat.le_of_not_lt h))]
    simp only [List.length_map, List.length_take]
    have hmin : min n l.length = n :=
      Nat.min_eq_left (le_trans (Nat.le_of_not_lt h) (le_of_lt hm))
    rw [hmin, List.getD_eq_getElem?_getD, List.getD_eq_getElem?_getD, List.getElem?_drop]
    rw [if_neg h]
    have harith : n + (m - n) = m := by omega
    rw [harith]

/-- argsort_desc is a permutation of the token indices. -/
theorem argsort_desc_perm (probs : List ℚ) :
    List.Perm (argsort_desc probs) (List.range probs.length) :=
  List.perm_insertionSort _ _

/-- argsort_desc covers exactly the token indices. -/
theorem argsort_desc_length (probs : List ℚ) :
    (argsort_desc probs).length = probs.length := by
  simpa using (argsort_desc_perm probs).length_eq

/-- argsort_desc has no duplicate token. -/
theorem argsort_desc_nodup (probs : List ℚ) : (argsort_desc probs).Nodup :=
  ((argsort_desc_perm probs).nodup_iff).mpr (List.nodup_range probs.length)

/-- Membership in argsort_desc is being a valid token index. -/
theorem argsort_desc_mem (probs : List ℚ) (t : Nat) :
    t ∈ argsort_desc probs ↔ t < probs.length := by
  rw [(argsort_desc_perm probs).mem_iff, List.mem_range]

/-- argsort_desc is sorted by descending probability. -/
theorem argsort_desc_sorted (probs : List ℚ) :
    List.Sorted (fun i j => probs.getD j 0 ≤ probs.getD i 0) (argsort_desc probs) := by
  haveI : IsTotal Nat (fun i j => probs.getD j 0 ≤ probs.getD i 0) :=
    ⟨fun a b => le_total _ _⟩
  haveI : IsTrans Nat (fun i j => probs.getD j 0 ≤ probs.getD i 0) :=
    ⟨fun a b c h1 h2 => le_trans h2 h1⟩
  exact List.sorted_insertionSort _ _

/-- Value of the sorted row at a rank. -/
theorem sort_desc_getD_eq (probs : List ℚ) (j : Nat) (hj : j < probs.length) :
    (sort_desc probs).getD j 0 = probs.getD ((argsort_desc probs).getD j 0) 0 := by
  unfold sort_desc
  exact getD_map_of_lt _ _ j 0 0 (by rw [argsort_desc_length]; exact hj)

/-- The sorted row is antitone in the rank. -/
theorem sort_desc_antitone (probs : List ℚ) (j1 j2 : Nat) (h12 : j1 ≤ j2)
    (h2 : j2 < probs.length) :
    (sort_desc probs).getD j2 0 ≤ (sort_desc probs).getD j1 0 := by
  have hlen := argsort_desc_length probs
  have hj2 : j2 < (argsort_desc probs).length := by omega
  have hj1 : j1 < (argsort_desc probs).length := by omega
  unfold sort_desc
  rw [getD_map_of_lt _ _ j2 0 0 hj2, getD_map_of_lt _ _ j1 0 0 hj1]
  rcases Nat.eq_or_lt_of_le h12 with he | hlt
  · subst he
    exact le_refl _
  · have hs := List.Sorted.rel_get_of_lt (argsort_desc_sorted probs)
      (a := ⟨j1, hj1⟩) (b := ⟨j2, hj2⟩) (by simpa using hlt)
    rw [List.getD_eq_getElem _ 0 hj2, List.getD_eq_getElem _ 0 hj1]
    exact hs

/-- The rank of a valid token is a valid rank. -/
theorem rank_desc_lt (probs : List ℚ) (t : Nat) (h : t < probs.length) :
    rank_desc probs t < probs.length := by
  have hmem := (argsort_desc_mem probs t).mpr h
  have := List.indexOf_lt_length.mpr hmem
  rw [argsort_desc_length] at this
  exact this

/-- argsort_desc at the rank of a valid token gives the token back. -/
theorem argsort_desc_getD_rank (probs : List ℚ) (t : Nat) (h : t < probs.length) :
    (argsort_desc probs).getD (rank_desc probs t) 0 = t := by
  have hmem := (argsort_desc_mem probs t).mpr h
  have hidx := List.indexOf_lt_length.mpr hmem
  rw [rank_desc, List.getD_eq_getElem _ 0 hidx]
  exact List.indexOf_get hidx

/-- C3: with the clamped k, TopKProcess keeps unchanged every entry at
least the k-th largest value and zeroes the rest; with strictly positive
probabilities at least k tokens (more on ties) keep nonzero probability. -/
theorem TopKProcess_spec (probs : List ℚ) (top_k min_tokens_to_keep : Nat)
    (h1 : 1 ≤ top_k) (h2 : 1 ≤ min_tokens_to_keep) (hpos : ∀ x ∈ probs, 0 < x) :
    (∀ t, t < probs.length →
      (TopKProcess probs top_k min_tokens_to_keep).getD t 0 =
        if (sort_desc probs).getD (min (max top_k min_tokens_to_keep) probs.length - 1) 0 ≤
            probs.getD t 0
        then probs.getD t 0 else 0) ∧
    min (max top_k min_tokens_to_keep) probs.length ≤
      ((List.range probs.length).filter
        (fun t => decide ((TopKProcess probs top_k min_tokens_to_keep).getD t 0 ≠ 0))).length := by
  have hmain : ∀ t, t < probs.length →
      (TopKProcess probs top_k min_tokens_to_keep).getD t 0 =
        if (sort_desc probs).getD (min (max top_k min_tokens_to_keep) probs.length - 1) 0 ≤
            probs.getD t 0
        then probs.getD t 0 else 0 := by
    intro t ht
    have hk2pos : 1 ≤ min (max top_k min_tokens_to_keep) probs.length := by
      have : 1 ≤ max top_k min_tokens_to_keep := le_trans h1 (Nat.le_max_left _ _)
      have hV : 1 ≤ probs.length := by omega
      omega
    have hthr : ((sort_desc probs).take
        (min (max top_k min_tokens_to_keep) probs.length)).getD
        (min (max top_k min_tokens_to_keep) probs.length - 1) 0 =
        (sort_desc probs).getD (min (max top_k min_tokens_to_keep) probs.length - 1) 0 :=
      getD_take_of_lt _ _ _ _ (by omega)
    simp only [TopKProcess]
    rw [getD_map_of_lt _ probs t 0 0 ht, hthr]
  refine ⟨hmain, ?_⟩
  have hk2V : min (max top_k min_tokens_to_keep) probs.length ≤ probs.length :=
    Nat.min_le_right _ _
  have hSnodup : ((argsort_desc probs).take
      (min (max top_k min_tokens_to_keep) probs.length)).Nodup :=
    (argsort_desc_nodup probs).sublist (List.take_sublist _ _)
  have hSlen : ((argsort_desc probs).take
      (min (max top_k min_tokens_to_keep) probs.length)).length =
      min (max top_k min_tokens_to_keep) probs.length := by
    rw [List.length_take, argsort_desc_length]
    omega
  have hsubset : ∀ x ∈ (argsort_desc probs).take
      (min (max top_k min_tokens_to_keep) probs.length),
      x ∈ (List.range probs.length).filter
        (fun t => decide ((TopKProcess probs top_k min_tokens_to_keep).getD t 0 ≠ 0)) := by
    intro x hx
    obtain ⟨i, hiS, hgx⟩ := List.getElem_of_mem hx
    have hik : i < min (max top_k min_tokens_to_keep) probs.length := by
      rw [hSlen] at hiS
      exact hiS
    have hiA : i < (argsort_desc probs).length := by
      rw [argsort_desc_length]
      omega
    have hxi : (argsort_desc probs).getD i 0 = x := by
      rw [List.getD_eq_getElem _ 0 hiA, ← hgx]
      exact (List.getElem_take _).symm
    have hxV : x < probs.length := by
      have hmm : (argsort_desc probs).getD i 0 ∈ argsort_desc probs := by
        rw [List.getD_eq_getElem _ 0 hiA]
        exact List.getElem_mem hiA
      rw [hxi] at hmm
      exact (argsort_desc_mem probs x).mp hmm
    have hval : (sort_desc probs).getD i 0 = probs.getD x 0 := by
      rw [sort_desc_getD_eq probs i (by omega), hxi]
    have hthrle : (sort_desc probs).getD
        (min (max top_k min_tokens_to_keep) probs.length - 1) 0 ≤ probs.getD x 0 := by
      rw [← hval]
      exact sort_desc_antitone probs i _ (by omega) (by omega)
    have hpos_x : 0 < probs.getD x 0 := by
      have hmm : probs.getD x 0 ∈ probs := by
        rw [List.getD_eq_getElem _ 0 hxV]
        exact List.getElem_mem hxV
      exact hpos _ hmm
    have hx_out : (TopKProcess probs top_k min_tokens_to_keep).getD x 0 = probs.getD x 0 := by
      rw [hmain x hxV, if_pos hthrle]
    refine List.mem_filter.mpr ⟨List.mem_range.mpr hxV, ?_⟩
    rw [hx_out]
    simpa using ne_of_gt hpos_x
  calc min (max top_k min_tokens_to_keep) probs.length
      = ((argsort_desc probs).take (min (max top_k min_tokens_to_keep) probs.length)).length :=
        hSlen.symm
    _ ≤ _ := ((hSnodup.subperm (by
        intro x hx
        exact hsubset x hx))).length_le

/-- C3 (witness): the top-k theorem evaluated at a concrete row with k
clamped to 2; the threshold is the second largest value. -/
theorem TopKProcess_spec_witness :
    (∀ t, t < ([4, 2, 1] : List ℚ).length →
      (TopKProcess [4, 2, 1] 2 1).getD t 0 =
        if (sort_desc [4, 2, 1]).getD
            (min (max 2 1) ([4, 2, 1] : List ℚ).length - 1) 0 ≤
            ([4, 2, 1] : List ℚ).getD t 0
        then ([4, 2, 1] : List ℚ).getD t 0 else 0) ∧
    min (max 2 1) ([4, 2, 1] : List ℚ).length ≤
      ((List.range ([4, 2, 1] : List ℚ).length).filter
        (fun t => decide ((TopKProcess [4, 2, 1] 2 1).getD t 0 ≠ 0))).length :=
  TopKProcess_spec [4, 2, 1] 2 1 (by decide) (by decide) (by
    intro x hx
    simp only [List.mem_cons, List.not_mem_nil, or_false] at hx
    rcases hx with h | h | h <;> subst h <;> norm_num)

/-- C2: TopPProcess keeps an entry exactly when its rank is within the
first min_tokens_to_keep tokens or the cumulative probability of the
tokens ranked strictly before it is at most top_p, and zeroes every other
entry; the first token of the descending order attains the maximum
probability and is always kept. -/
theorem TopPProcess_spec (probs : List ℚ) (top_p : ℚ) (min_tokens_to_keep : Nat)
    (hprob : ∀ x ∈ probs, 0 ≤ x) (hsum : probs.sum = 1)
    (htp0 : 0 < top_p) (htp1 : top_p < 1) (hm : 1 ≤ min_tokens_to_keep) :
    (∀ t, t < probs.length →
      (TopPProcess probs top_p min_tokens_to_keep).getD t 0 =
        if rank_desc probs t < min_tokens_to_keep ∨ cum_before probs t ≤ top_p
        then probs.getD t 0 else 0) ∧
    (0 < probs.length →
      (TopPProcess probs top_p min_tokens_to_keep).getD ((argsort_desc probs).getD 0 0) 0 =
        probs.getD ((argsort_desc probs).getD 0 0) 0 ∧
      ∀ s, s < probs.length →
        probs.getD s 0 ≤ probs.getD ((argsort_desc probs).getD 0 0) 0) := by
  have hmain : ∀ t, t < probs.length →
      (TopPProcess probs top_p min_tokens_to_keep).getD t 0 =
        if rank_desc probs t < min_tokens_to_keep ∨ cum_before probs t ≤ top_p
        then probs.getD t 0 else 0 := by
    intro t ht
    have hAlen := argsort_desc_length probs
    have hj := rank_desc_lt probs t ht
    have hAj := argsort_desc_getD_rank probs t ht
    have hsd_len : (sort_desc probs).length = probs.length := by
      unfold sort_desc
      rw [List.length_map, hAlen]
    have hcum_len : (cumsum 0 (sort_desc probs)).length = probs.length := by
      rw [cumsum_length, hsd_len]
    have hs0_len : ((cumsum 0 (sort_desc probs)).map
        (fun c => decide (c > top_p))).length = probs.length := by
      rw [List.length_map, hcum_len]
    simp only [TopPProcess]
    set s1 := (if min_tokens_to_keep > 1 then
        mask_first (min_tokens_to_keep - 1)
          ((cumsum 0 (sort_desc probs)).map fun c => decide (c > top_p))
      else (cumsum 0 (sort_desc probs)).map fun c => decide (c > top_p)) with hs1def
    have hs1_len : s1.length = probs.length := by
      rw [hs1def]
      by_cases hgt : min_tokens_to_keep > 1
      · rw [if_pos hgt, mask_first_length, hs0_len]
      · rw [if_neg hgt, hs0_len]
    have hs2_len : (false :: s1.dropLast).length = probs.length := by
      rw [List.length_cons, List.length_dropLast, hs1_len]
      omega
    have hcond_len : (scatter_upd (List.replicate probs.length false) (argsort_desc probs)
        (false :: s1.dropLast)).length = probs.length := by
      rw [scatter_upd_length, List.length_replicate]
    have hcond : (scatter_upd (List.replicate probs.length false) (argsort_desc probs)
        (false :: s1.dropLast)).getD t false =
        (false :: s1.dropLast).getD (rank_desc probs t) false := by
      have h := scatter_upd_hit (List.replicate probs.length false) (argsort_desc probs)
        (false :: s1.dropLast) (rank_desc probs t) false (argsort_desc_nodup probs)
        (by rw [hAlen]; exact hj) (by rw [hs2_len]; exact hj)
        (by rw [hAj, List.length_replicate]; exact ht)
      rw [hAj] at h
      exact h
    have hs2val : (false :: s1.dropLast).getD (rank_desc probs t) false =
        decide (min_tokens_to_keep ≤ rank_desc probs t ∧ top_p < cum_before probs t) := by
      rcases hjj : rank_desc probs t with _ | k
      · simp only [List.getD_cons_zero]
        have hn : ¬ (min_tokens_to_keep ≤ 0) := by omega
        simp [hn]
      · have hkV : k < probs.length := by
          have hq := hj
          rw [hjj] at hq
          omega
        simp only [List.getD_cons_succ]
        rw [getD_dropLast_of_lt s1 k false (by
          rw [hs1_len]
          have hq := hj
          rw [hjj] at hq
          omega)]
        have hs1val : s1.getD k false =
            if k < min_tokens_to_keep - 1 then false
            else decide ((cumsum 0 (sort_desc probs)).getD k 0 > top_p) := by
          rw [hs1def]
          by_cases hmt : min_tokens_to_keep > 1
          · rw [if_pos hmt, mask_first_getD _ _ k false (by rw [hs0_len]; exact hkV)]
            by_cases hk1 : k < min_tokens_to_keep - 1
            · rw [if_pos hk1, if_pos hk1]
            · rw [if_neg hk1, if_neg hk1]
              exact getD_map_of_lt _ _ k 0 false (by rw [hcum_len]; exact hkV)
          · rw [if_neg hmt]
            have hk1 : ¬ k < min_tokens_to_keep - 1 := by omega
            rw [if_neg hk1]
            exact getD_map_of_lt _ _ k 0 false (by rw [hcum_len]; exact hkV)
        rw [hs1val]
        have hcumval : (cumsum 0 (sort_desc probs)).getD k 0 =
            ((sort_desc probs).take (k + 1)).sum := by
          rw [cumsum_getD _ 0 k (by rw [hsd_len]; exact hkV), zero_add]
        have hcb : cum_before probs t = ((sort_desc probs).take (k + 1)).sum := by
          rw [cum_before, hjj]
        by_cases hk1 : k < min_tokens_to_keep - 1
        · rw [if_pos hk1]
          have hn : ¬ (min_tokens_to_keep ≤ k + 1) := by omega
          simp [hn]
        · rw [if_neg hk1, hcumval, hcb]
          have hle : min_tokens_to_keep ≤ k + 1 := by omega
          simp [hle, gt_iff_lt]
    rw [zipWith_getD (fun c x => if c then (0 : ℚ) else x) _ probs t false 0 0
      (by rw [hcond_len]; exact ht) ht]
    rw [hcond, hs2val]
    by_cases hP : min_tokens_to_keep ≤ rank_desc probs t ∧ top_p < cum_before probs t
    · have hnot : ¬ (rank_desc probs t < min_tokens_to_keep ∨ cum_before probs t ≤ top_p) := by
        push_neg
        exact hP
      rw [if_neg hnot]
      simp [decide_eq_true hP]
    · have hor : rank_desc probs t < min_tokens_to_keep ∨ cum_before probs t ≤ top_p := by
        rcases not_and_or.mp hP with h | h
        · exact Or.inl (Nat.lt_of_not_le h)
        · exact Or.inr (not_lt.mp h)
      rw [if_pos hor]
      simp [decide_eq_false hP]
  refine ⟨hmain, ?_⟩
  intro hV
  have hAlen := argsort_desc_length probs
  have hA0 : 0 < (argsort_desc probs).length := by omega
  have ht0V : (argsort_desc probs).getD 0 0 < probs.length := by
    have hmm : (argsort_desc probs).getD 0 0 ∈ argsort_desc probs := by
      rw [List.getD_eq_getElem _ 0 hA0]
      exact List.getElem_mem hA0
    exact (argsort_desc_mem probs _).mp hmm
  have hrank0 : rank_desc probs ((argsort_desc probs).getD 0 0) = 0 := by
    unfold rank_desc
    rcases hA : argsort_desc probs with _ | ⟨a, as⟩
    · rw [hA] at hA0
      simp at hA0
    · simp [List.getD_cons_zero, List.indexOf_cons_self]
  constructor
  · rw [hmain _ ht0V, if_pos (Or.inl (by rw [hrank0]; omega))]
  · intro s hs
    have hjs := rank_desc_lt probs s hs
    have hAjs := argsort_desc_getD_rank probs s hs
    have h1 : probs.getD s 0 = (sort_desc probs).getD (rank_desc probs s) 0 := by
      rw [sort_desc_getD_eq probs _ hjs, hAjs]
    have h2 : (sort_desc probs).getD (rank_desc probs s) 0 ≤ (sort_desc probs).getD 0 0 :=
      sort_desc_antitone probs 0 _ (Nat.zero_le _) hjs
    have h3 : (sort_desc probs).getD 0 0 = probs.getD ((argsort_desc probs).getD 0 0) 0 :=
      sort_desc_getD_eq probs 0 (by omega)
    rw [h1, ← h3]
    exact h2

/-- C2 (witness): the top-p theorem evaluated at a concrete probability
row summing to one, with top_p = 3/5 and one token always kept. -/
theorem TopPProcess_spec_witness :
    (∀ t, t < ([1/2, 1/4, 1/4] : List ℚ).length →
      (TopPProcess [1/2, 1/4, 1/4] (3/5) 1).getD t 0 =
        if rank_desc [1/2, 1/4, 1/4] t < 1 ∨ cum_before [1/2, 1/4, 1/4] t ≤ 3/5
        then ([1/2, 1/4, 1/4] : List ℚ).getD t 0 else 0) ∧
    (0 < ([1/2, 1/4, 1/4] : List ℚ).length →
      (TopPProcess [1/2, 1/4, 1/4] (3/5) 1).getD
          ((argsort_desc [1/2, 1/4, 1/4]).getD 0 0) 0 =
        ([1/2, 1/4, 1/4] : List ℚ).getD ((argsort_desc [1/2, 1/4, 1/4]).getD 0 0) 0 ∧
      ∀ s, s < ([1/2, 1/4, 1/4] : List ℚ).length →
        ([1/2, 1/4, 1/4] : List ℚ).getD s 0 ≤
          ([1/2, 1/4, 1/4] : List ℚ).getD ((argsort_desc [1/2, 1/4, 1/4]).getD 0 0) 0) :=
  TopPProcess_spec [1/2, 1/4, 1/4] (3/5) 1
    (by
      intro x hx
      simp only [List.mem_cons, List.not_mem_nil, or_false] at hx
      rcases hx with h | h | h <;> subst h <;> norm_num)
    (by norm_num)
    (by norm_num) (by norm_num) (by norm_num)
